import Mathlib

/-!
Verification of the registration core of a small IRC server: the message
codec (`irc/message.go`), the shared state registry (`irc/state.go`) and the
fresh-connection handlers (`irc/handler_fresh.go`).  Go maps are embedded as
association lists, Go's `map[T]bool` member sets as duplicate-free lists, and
fallible operations return `Option` (a Go runtime panic is a distinguished
outcome).  The immutable configuration snapshot and the channel log writer
are omitted: no operation modelled below reads them.
-/

namespace Channels

/-- Modelled from the spec: the repository's `lowercase` helper is not part of
the inspected files; the spec states that user and channel keys are
case-insensitive and stored under the lowercase form, so it is modelled as
per-character ASCII lowercasing. -/
def lowerChar (c : Char) : Char :=
  if 'A' ≤ c ∧ c ≤ 'Z' then Char.ofNat (c.toNat + 32) else c

/-- Modelled from the spec: `lowercase` maps every character of the string to
its lowercase form. -/
def lowercase (s : String) : String :=
  String.mk (s.data.map lowerChar)

theorem lowerChar_fixed (c : Char) (h : ¬('A' ≤ c ∧ c ≤ 'Z')) : lowerChar c = c := by
  simp [lowerChar, h]

theorem toNat_ofNat_valid (n : Nat) (h : n < 55296) : (Char.ofNat n).toNat = n := by
  have hv : n.isValidChar := Or.inl (by omega)
  simp [Char.ofNat, hv, Char.ofNatAux, Char.toNat]
  rfl

theorem lowerChar_idem (c : Char) : lowerChar (lowerChar c) = lowerChar c := by
  by_cases h : 'A' ≤ c ∧ c ≤ 'Z'
  · have hle : c.toNat ≤ 90 := h.2
    have hge : 65 ≤ c.toNat := h.1
    have h1 : lowerChar c = Char.ofNat (c.toNat + 32) := by simp [lowerChar, h]
    have htn : (Char.ofNat (c.toNat + 32)).toNat = c.toNat + 32 :=
      toNat_ofNat_valid _ (by omega)
    rw [h1]
    apply lowerChar_fixed
    intro hcontra
    have hz : (Char.ofNat (c.toNat + 32)).toNat ≤ 90 := hcontra.2
    rw [htn] at hz
    omega
  · simp only [lowerChar_fixed c h]

theorem lowercase_idem (s : String) : lowercase (lowercase s) = lowercase s := by
  unfold lowercase
  congr 1
  show List.map lowerChar (List.map lowerChar s.data) = List.map lowerChar s.data
  rw [List.map_map]
  apply List.map_congr_left
  intro c _
  exact lowerChar_idem c

theorem lowercase_length (s : String) : (lowercase s).length = s.length := by
  show (s.data.map lowerChar).length = s.data.length
  exact List.length_map _ _

/-- `message.go`: a decoded IRC protocol message.  The Go field `prefix` is
named `pfx` here (`prefix` is reserved in Lean); `sink` / connection fields do
not occur on messages. -/
structure message where
  pfx : String
  command : String
  params : List String
  trailing : String
deriving DecidableEq, Repr

/-- `message.go` `laxTrailing`: the trailing portion of an IRC message, or the
last positional parameter as a fallback. -/
def message.laxTrailing (m : message) (minIndex : Nat) : String :=
  if m.trailing ≠ "" then m.trailing
  else
    let l := m.params.length
    if l ≤ minIndex then ""
    else m.params.getD (l - 1) ""

/-- `message.go` `toString`, inner loop: append each positional parameter,
failing if one contains a space (Go's `strings.Contains(param, " ")`; for the
single-character pattern this is exactly "some character is a space"). -/
def appendParams (acc : String) : List String → Option String
  | [] => some acc
  | p :: ps => if p.data.contains ' ' then none else appendParams (acc ++ " " ++ p) ps

/-- `message.go` `toString`: serialize a message to an IRC protocol line.
Go returns `("", false)` on failure; that is embedded as `none`. -/
def message.toString (m : message) : Option String :=
  if m.command = "" then none
  else
    let head := (if m.pfx.length > 0 then ":" ++ m.pfx ++ " " else "") ++ m.command
    match appendParams head m.params with
    | none => none
    | some withParams =>
        some (withParams ++ (if m.trailing ≠ "" then " :" ++ m.trailing else "") ++ "\r\n")

/-- Specification-side rendering of the positional parameters: each one
prefixed by a single space. -/
def paramsText : List String → String
  | [] => ""
  | p :: ps => " " ++ p ++ paramsText ps

theorem appendParams_eq_none (acc : String) (ps : List String) :
    appendParams acc ps = none ↔ ∃ p ∈ ps, ' ' ∈ p.data := by
  induction ps generalizing acc with
  | nil => simp [appendParams]
  | cons p ps ih =>
    by_cases hp : ' ' ∈ p.data
    · simp [appendParams, hp]
    · simp [appendParams, hp, ih]

theorem appendParams_eq_some (acc : String) (ps : List String) (out : String)
    (h : appendParams acc ps = some out) : out = acc ++ paramsText ps := by
  induction ps generalizing acc with
  | nil =>
    simp [appendParams] at h
    simp [paramsText, ← h]
  | cons p ps ih =>
    by_cases hp : ' ' ∈ p.data
    · simp [appendParams, hp] at h
    · simp [appendParams, hp] at h
      have := ih _ h
      simp [paramsText, this, String.append_assoc]

/-- Go map embedding: association list keyed by `String`; `mapFind` is map
lookup (`m[k]`). -/
def mapFind (k : String) : List (String × α) → Option α
  | [] => none
  | (k', v) :: rest => if k' = k then some v else mapFind k rest

/-- Go map deletion (`delete(m, k)`): removes every entry stored under `k`. -/
def mapErase (k : String) (m : List (String × α)) : List (String × α) :=
  m.filter (fun kv => kv.1 ≠ k)

/-- Go map insertion (`m[k] = v`). -/
def mapInsert (k : String) (v : α) (m : List (String × α)) : List (String × α) :=
  (k, v) :: mapErase k m

/-- Go `map[T]bool` member-set embedding: insertion (`m[x] = true`). -/
def setInsert (k : String) (s : List String) : List String :=
  if k ∈ s then s else k :: s

/-- Go `map[T]bool` member-set embedding: deletion (`delete(m, x)`). -/
def setErase (k : String) (s : List String) : List String :=
  s.filter (fun x => x ≠ k)

/-- The `user` struct (declared outside the inspected files; its fields are
those used by `state.go` and `handler_fresh.go`): display-case nickname, the
user-info string stored by the USER command (Go field `user`, zero value
`""`), and the set of joined channels.  Channel pointers are embedded as
channel keys (the lowercase name, which `newChannel` also stores as the
channel's `name`); the connection `sink` is outside the model. -/
structure user where
  nick : String
  userInfo : String
  channels : List String
deriving DecidableEq, Repr

/-- The `channel` struct: name (lowercased at creation) and the set of member
users.  User pointers are embedded as user keys (lowercase nicknames). -/
structure channel where
  name : String
  users : List String
deriving DecidableEq, Repr

/-- `stateImpl` from `state.go`: the channel and user directories.  The
immutable `config` snapshot is omitted (no modelled operation reads it). -/
structure stateImpl where
  channels : List (String × channel)
  users : List (String × user)
deriving DecidableEq, Repr

/-- `newState`: the empty registry. -/
def emptyState : stateImpl := ⟨[], []⟩

/-- Outcome of a Go call that can terminate the program with a runtime
panic. -/
inductive goResult (α : Type) where
  | ok (val : α)
  | panicked
deriving DecidableEq, Repr

/-- `state.go` `isValidNick`. -/
def isValidNick (nick : String) : Bool :=
  nick.length ≤ 9

/-- `state.go` `getChannel`. -/
def getChannel (s : stateImpl) (name : String) : Option channel :=
  mapFind (lowercase name) s.channels

/-- `state.go` `getUser`. -/
def getUser (s : stateImpl) (nick : String) : Option user :=
  mapFind (lowercase nick) s.users

/-- `state.go` `newUser`: returns the created user (Go: a non-nil pointer)
and the updated registry. -/
def newUser (s : stateImpl) (nick : String) : Option user × stateImpl :=
  let nickLower := lowercase nick
  if (mapFind nickLower s.users).isSome then (none, s)
  else if ¬ isValidNick nickLower then (none, s)
  else
    let u : user := ⟨nick, "", []⟩
    (some u, { s with users := mapInsert nickLower u s.users })

/-- `state.go` `newChannel`.  `name[0]` on the empty string is a Go runtime
panic (index out of range), embedded as `goResult.panicked`. -/
def newChannel (s : stateImpl) (name : String) : goResult (Option channel × stateImpl) :=
  let nameL := lowercase name
  if (mapFind nameL s.channels).isSome then .ok (none, s)
  else
    match nameL.data with
    | [] => .panicked
    | c :: _ =>
        if c ≠ '#' ∧ c ≠ '&' then .ok (none, s)
        else
          let ch : channel := ⟨nameL, []⟩
          .ok (some ch, { s with channels := mapInsert nameL ch s.channels })

/-- `state.go` `recycleChannel`: removes the channel registered under `ck` if
it has no more joined users.  A missing entry corresponds to Go's nil-pointer
guard. -/
def recycleChannel (s : stateImpl) (ck : String) : stateImpl :=
  match mapFind ck s.channels with
  | none => s
  | some ch =>
      if ch.users.length ≠ 0 then s
      else { s with channels := mapErase ch.name s.channels }

/-- `state.go` `joinChannel`: adds the bidirectional membership link; no-op
if the user is already a member.  Channel and user pointers are embedded as
their registry keys. -/
def joinChannel (s : stateImpl) (ck uk : String) : stateImpl :=
  match mapFind ck s.channels, mapFind uk s.users with
  | some ch, some u =>
      if uk ∈ ch.users then s
      else
        { s with
            channels := mapInsert ck { ch with users := setInsert uk ch.users } s.channels,
            users := mapInsert uk { u with channels := setInsert ch.name u.channels } s.users }
  | _, _ => s

/-- `state.go` `removeFromChannel`: silently removes the link (the deletion
from `user.channels` happens unconditionally, the channel-side deletion and
the recycling only if the user really was a member). -/
def removeFromChannel (s : stateImpl) (ck uk : String) : stateImpl :=
  match mapFind ck s.channels, mapFind uk s.users with
  | some ch, some u =>
      let s1 : stateImpl :=
        { s with users := mapInsert uk { u with channels := setErase ch.name u.channels } s.users }
      if uk ∈ ch.users then
        recycleChannel
          { s1 with channels := mapInsert ck { ch with users := setErase uk ch.users } s1.channels }
          ck
      else s1
  | _, _ => s

/-- `state.go` `partChannel`: delegates to `removeFromChannel`; the parting
reason is only used by an external notification step. -/
def partChannel (s : stateImpl) (ck uk : String) (_reason : String) : stateImpl :=
  removeFromChannel s ck uk

/-- `state.go` `removeUser`: parts the user from every joined channel, then
deletes the user from the directory. -/
def removeUser (s : stateImpl) (uk : String) : stateImpl :=
  match mapFind uk s.users with
  | none => s
  | some u =>
      let s' := u.channels.foldl (fun st cn => partChannel st cn uk "QUITing") s
      { s' with users := mapErase (lowercase u.nick) s'.users }

/-- Numeric replies used by the fresh-connection handlers. -/
inductive numericReply where
  | errorNoNicknameGiven
  | errorNicknameInUse
  | errorNeedMoreParams
deriving DecidableEq, Repr

/-- Observable side effects of a handler step other than registry mutation:
numeric replies, the welcome/MOTD sequence, and attaching the connection as
the user's output sink. -/
inductive effect where
  | sendNumeric (code : numericReply)
  | sendMOTD
  | attachSink
deriving DecidableEq, Repr

/-- The handler returned by a transition: `freshUser` and `registered` carry
the data the corresponding Go struct holds (the user pointer, embedded as its
registry key, resp. the nickname passed to `newUserHandler`). -/
inductive handlerTag where
  | fresh
  | freshUser (uk : String)
  | registered (nick : String)
deriving DecidableEq, Repr

/-- `handler_fresh.go` `freshHandler.handleNick`: the NICK branch of the
fresh-connection handler. -/
def handleNick (s : stateImpl) (msg : message) : List effect × handlerTag × stateImpl :=
  if msg.params.length < 1 then ([.sendNumeric .errorNoNicknameGiven], .fresh, s)
  else
    let nick := msg.params.headD ""
    match newUser s nick with
    | (none, s') => ([.sendNumeric .errorNicknameInUse], .fresh, s')
    | (some u, s') => ([.attachSink], .freshUser (lowercase u.nick), s')

/-- `handler_fresh.go` `freshUserHandler.handleUser`: the USER branch.  The
handler's user pointer is embedded as the registry key `uk`; `none` models a
dangling pointer, which never occurs for handlers produced by `handleNick`. -/
def handleUser (s : stateImpl) (uk : String) (msg : message) :
    Option (List effect × handlerTag × stateImpl) :=
  match mapFind uk s.users with
  | none => none
  | some u =>
      let trailing := msg.laxTrailing 3
      if msg.params.length < 3 ∨ trailing = "" then
        some ([.sendNumeric .errorNeedMoreParams], .freshUser uk, s)
      else
        some ([.sendMOTD], .registered u.nick,
          { s with users := mapInsert uk { u with userInfo := msg.params.headD "" } s.users })

theorem mapFind_insert_self (k : String) (v : α) (m : List (String × α)) :
    mapFind k (mapInsert k v m) = some v := by
  simp [mapInsert, mapFind]

theorem mapErase_cons_self (k : String) (kv : String × α) (rest : List (String × α))
    (h : kv.1 = k) : mapErase k (kv :: rest) = mapErase k rest := by
  simp [mapErase, List.filter_cons, h]

theorem mapErase_cons_ne (k : String) (kv : String × α) (rest : List (String × α))
    (h : kv.1 ≠ k) : mapErase k (kv :: rest) = kv :: mapErase k rest := by
  simp [mapErase, List.filter_cons, h]

theorem mapFind_erase_self (k : String) (m : List (String × α)) :
    mapFind k (mapErase k m) = none := by
  induction m with
  | nil => rfl
  | cons kv rest ih =>
    by_cases h : kv.1 = k
    · rw [mapErase_cons_self k kv rest h]; exact ih
    · rw [mapErase_cons_ne k kv rest h]
      simp [mapFind, h, ih]

theorem mapFind_erase_ne (k k' : String) (m : List (String × α)) (h : k' ≠ k) :
    mapFind k' (mapErase k m) = mapFind k' m := by
  induction m with
  | nil => rfl
  | cons kv rest ih =>
    by_cases hk : kv.1 = k
    · have hne : kv.1 ≠ k' := by rw [hk]; exact fun he => h he.symm
      rw [mapErase_cons_self k kv rest hk, ih]
      simp [mapFind, hne]
    · rw [mapErase_cons_ne k kv rest hk]
      by_cases hk' : kv.1 = k'
      · simp [mapFind, hk']
      · simp [mapFind, hk', ih]

theorem mapFind_insert_ne (k k' : String) (v : α) (m : List (String × α)) (h : k' ≠ k) :
    mapFind k' (mapInsert k v m) = mapFind k' m := by
  show (if k = k' then some v else mapFind k' (mapErase k m)) = mapFind k' m
  rw [if_neg (fun he => h he.symm), mapFind_erase_ne k k' m h]

theorem mapFind_insert (k k' : String) (v : α) (m : List (String × α)) :
    mapFind k' (mapInsert k v m) = if k' = k then some v else mapFind k' m := by
  by_cases h : k' = k
  · subst h; simp [mapFind_insert_self]
  · rw [if_neg h, mapFind_insert_ne k k' v m h]

theorem mapFind_erase (k k' : String) (m : List (String × α)) :
    mapFind k' (mapErase k m) = if k' = k then none else mapFind k' m := by
  by_cases h : k' = k
  · subst h; simp [mapFind_erase_self]
  · simp [h, mapFind_erase_ne k k' m h]

theorem mem_setInsert_self (k : String) (s : List String) : k ∈ setInsert k s := by
  by_cases h : k ∈ s <;> simp [setInsert, h]

theorem mem_setInsert (x k : String) (s : List String) :
    x ∈ setInsert k s ↔ x = k ∨ x ∈ s := by
  by_cases h : k ∈ s
  · simp [setInsert, h]
    intro hx; subst hx; exact h
  · simp [setInsert, h]

theorem mem_setErase (x k : String) (s : List String) :
    x ∈ setErase k s ↔ x ∈ s ∧ x ≠ k := by
  simp [setErase]

/-- C1: `toString` fails exactly when the command is empty or a middle
parameter contains a space; on success the output is the optional
`":" ++ prefix ++ " "`, the command, each middle parameter preceded by one
space, the non-empty trailing preceded by `" :"`, and CRLF; in particular the
concrete scenario-D message encodes as expected. -/
theorem C1_toString_correct (m : message) :
    (m.toString = none ↔ (m.command = "" ∨ ∃ p ∈ m.params, ' ' ∈ p.data))
    ∧ (∀ out, m.toString = some out →
        out = (if m.pfx.length > 0 then ":" ++ m.pfx ++ " " else "") ++ m.command
              ++ paramsText m.params
              ++ (if m.trailing ≠ "" then " :" ++ m.trailing else "") ++ "\r\n")
    ∧ message.toString ⟨"server.example", "PRIVMSG", ["#chan"], "hello world"⟩
        = some ":server.example PRIVMSG #chan :hello world\r\n" := by
  refine ⟨?_, ?_, by rfl⟩
  · by_cases hc : m.command = ""
    · simp [message.toString, hc]
    · cases happ : appendParams ((if m.pfx.length > 0 then ":" ++ m.pfx ++ " " else "")
          ++ m.command) m.params with
      | none =>
          have h1 := (appendParams_eq_none _ m.params).mp happ
          simp [message.toString, hc, happ, h1]
      | some w =>
          have h2 : ¬ ∃ p ∈ m.params, ' ' ∈ p.data := by
            intro hex
            rw [(appendParams_eq_none ((if m.pfx.length > 0 then ":" ++ m.pfx ++ " " else "")
                ++ m.command) m.params).mpr hex] at happ
            exact Option.noConfusion happ
          simp [message.toString, hc, happ, h2]
  · intro out hout
    by_cases hc : m.command = ""
    · simp [message.toString, hc] at hout
    · cases happ : appendParams ((if m.pfx.length > 0 then ":" ++ m.pfx ++ " " else "")
          ++ m.command) m.params with
      | none => simp [message.toString, hc, happ] at hout
      | some w =>
          simp only [message.toString, hc, if_neg, ite_false, happ, Option.some.injEq] at hout
          rw [← hout, appendParams_eq_some _ _ _ happ]

/-- C1 witness: the scenario-D encoding, obtained from the theorem. -/
theorem C1_witness :
    message.toString ⟨"server.example", "PRIVMSG", ["#chan"], "hello world"⟩
      = some ":server.example PRIVMSG #chan :hello world\r\n" :=
  (C1_toString_correct ⟨"server.example", "PRIVMSG", ["#chan"], "hello world"⟩).2.2

/-- C6: `laxTrailing` returns the trailing parameter when it is set (non
empty); otherwise the last positional parameter when more than `n` params are
present; otherwise the empty string — including both scenario-E instances. -/
theorem C6_laxTrailing_correct (m : message) (n : Nat) :
    (m.trailing ≠ "" → m.laxTrailing n = m.trailing)
    ∧ (m.trailing = "" → n < m.params.length → m.laxTrailing n = m.params.getLastD "")
    ∧ (m.trailing = "" → m.params.length ≤ n → m.laxTrailing n = "")
    ∧ message.laxTrailing ⟨"", "CMD", ["p1", "p2", "p3", "p4"], ""⟩ 3 = "p4"
    ∧ message.laxTrailing ⟨"", "CMD", ["p1", "p2", "p3"], ""⟩ 3 = "" := by
  refine ⟨?_, ?_, ?_, by rfl, by rfl⟩
  · intro ht; simp [message.laxTrailing, ht]
  · intro ht hn
    have h1 : m.laxTrailing n = m.params.getD (m.params.length - 1) "" := by
      simp [message.laxTrailing, ht, Nat.not_le_of_lt hn]
    rw [h1]
    simp [List.getD_eq_getElem?_getD, List.getLastD_eq_getLast?, List.getLast?_eq_getElem?]
  · intro ht hn; simp [message.laxTrailing, ht, hn]

/-- C6 witness: concrete instances of all three branches. -/
theorem C6_witness :
    message.laxTrailing ⟨"", "CMD", ["a"], "T"⟩ 0 = "T"
    ∧ message.laxTrailing ⟨"", "CMD", ["p1", "p2", "p3", "p4"], ""⟩ 3 = "p4"
    ∧ message.laxTrailing ⟨"", "CMD", ["p1", "p2", "p3"], ""⟩ 3 = "" :=
  ⟨(C6_laxTrailing_correct ⟨"", "CMD", ["a"], "T"⟩ 0).1 (by decide),
   (C6_laxTrailing_correct ⟨"", "CMD", ["p1", "p2", "p3", "p4"], ""⟩ 3).2.2.2.1,
   (C6_laxTrailing_correct ⟨"", "CMD", ["p1", "p2", "p3"], ""⟩ 3).2.2.2.2⟩

/-- C3: the code does not fail gracefully on every name lacking a `#`/`&`
sigil — on the empty name (absent from the directory) `newChannel` indexes
`name[0]` out of range and panics instead of returning no result. -/
theorem C3_newChannel_empty_name_panics :
    newChannel emptyState "" = goResult.panicked := by rfl

/-- C9 counterexample: `newChannel` lowercases the name before storing it, so
the created channel does not retain the display-case argument. -/
theorem C9_counterexample :
    newChannel emptyState "#Chan"
      = .ok (some ⟨"#chan", []⟩, ⟨[("#chan", ⟨"#chan", []⟩)], []⟩)
    ∧ ("#chan" : String) ≠ "#Chan" := ⟨by rfl, by decide⟩

/-- C9 (amended): the channel created by `newChannel` has the lowercase form
of the requested name as its `name` attribute, which is also its key. -/
theorem C9_amended_lowercase_name (s : stateImpl) (name : String) (ch : channel)
    (s' : stateImpl) (h : newChannel s name = .ok (some ch, s')) :
    ch.name = lowercase name ∧ mapFind (lowercase name) s'.channels = some ch := by
  by_cases hex : (mapFind (lowercase name) s.channels).isSome
  · simp [newChannel, hex] at h
  · cases hd : (lowercase name).data with
    | nil => simp [newChannel, hex, hd] at h
    | cons c rest =>
      by_cases hc : c ≠ '#' ∧ c ≠ '&'
      · simp [newChannel, hex, hd, hc] at h
      · simp only [newChannel, hex, Bool.false_eq_true, ite_false, if_neg, hd, hc,
          goResult.ok.injEq, Prod.mk.injEq, Option.some.injEq] at h
        obtain ⟨h1, h2⟩ := h
        subst h2
        subst h1
        exact ⟨rfl, mapFind_insert_self _ _ _⟩

/-- C9 witness: the amended statement at the concrete counterexample input. -/
theorem C9_witness :
    (⟨"#chan", []⟩ : channel).name = lowercase "#Chan"
    ∧ mapFind (lowercase "#Chan")
        ([("#chan", ⟨"#chan", []⟩)] : List (String × channel)) = some ⟨"#chan", []⟩ :=
  C9_amended_lowercase_name emptyState "#Chan" ⟨"#chan", []⟩ ⟨[("#chan", ⟨"#chan", []⟩)], []⟩
    (by rfl)

/-- C8: `joinChannel` is idempotent — joining the same channel-user pair a
second time leaves the registry exactly as after the first join. -/
theorem C8_joinChannel_idempotent (s : stateImpl) (ck uk : String) :
    joinChannel (joinChannel s ck uk) ck uk = joinChannel s ck uk := by
  cases hc : mapFind ck s.channels with
  | none => simp [joinChannel, hc]
  | some ch =>
    cases hu : mapFind uk s.users with
    | none => simp [joinChannel, hc, hu]
    | some u =>
      by_cases hmem : uk ∈ ch.users
      · simp [joinChannel, hc, hu, hmem]
      · have h1 : joinChannel s ck uk =
            { s with
                channels := mapInsert ck { ch with users := setInsert uk ch.users } s.channels,
                users := mapInsert uk { u with channels := setInsert ch.name u.channels } s.users } := by
          simp [joinChannel, hc, hu, hmem]
        rw [h1]
        simp [joinChannel, mapFind_insert_self, mem_setInsert_self]

/-- C2: `newUser` succeeds for any unregistered nickname of length at most 9,
creating a user with empty membership under the lowercase key; a repeat with
any letter case of the same nickname then fails leaving the registry
unchanged; and any nickname longer than 9 characters fails. -/
theorem C2_newUser_correct (s : stateImpl) (nick : String) :
    (nick.length ≤ 9 → mapFind (lowercase nick) s.users = none →
      newUser s nick = (some ⟨nick, "", []⟩,
          { s with users := mapInsert (lowercase nick) ⟨nick, "", []⟩ s.users })
      ∧ mapFind (lowercase nick) (newUser s nick).2.users = some ⟨nick, "", []⟩
      ∧ ∀ nick2, lowercase nick2 = lowercase nick →
          newUser (newUser s nick).2 nick2 = (none, (newUser s nick).2))
    ∧ (9 < nick.length → (newUser s nick).1 = none) := by
  constructor
  · intro hlen hnone
    have hvalid : isValidNick (lowercase nick) = true := by
      simp [isValidNick, lowercase_length, hlen]
    have h1 : newUser s nick = (some ⟨nick, "", []⟩,
        { s with users := mapInsert (lowercase nick) ⟨nick, "", []⟩ s.users }) := by
      simp [newUser, hnone, hvalid]
    refine ⟨h1, ?_, ?_⟩
    · rw [h1]; exact mapFind_insert_self _ _ _
    · intro nick2 h2
      rw [h1]
      simp [newUser, h2, mapFind_insert_self]
  · intro hlen
    by_cases hfind : (mapFind (lowercase nick) s.users).isSome
    · simp [newUser, hfind]
    · have hinv : ¬ isValidNick (lowercase nick) = true := by
        simp [isValidNick, lowercase_length]; omega
      simp [newUser, hfind, hinv]

/-- C2 witness: "Alice" registers once on the empty registry and the
10-character nickname "0123456789" is rejected. -/
theorem C2_witness :
    newUser emptyState "Alice" = (some ⟨"Alice", "", []⟩,
        { emptyState with users := mapInsert (lowercase "Alice") ⟨"Alice", "", []⟩ [] })
    ∧ (newUser emptyState "0123456789").1 = none :=
  ⟨((C2_newUser_correct emptyState "Alice").1 (by decide) (by rfl)).1,
   (C2_newUser_correct emptyState "0123456789").2 (by decide)⟩

/-- C10: nickname validation only bounds the length above, so the empty
nickname is valid; `newUser` on a registry without the empty key registers it
under the empty-string key, and `handleNick` passes an empty first parameter
straight to `newUser`, yielding a FreshUser handler for the empty nick. -/
theorem C10_empty_nick_registrable (s : stateImpl) (h : mapFind "" s.users = none) :
    isValidNick "" = true
    ∧ newUser s "" = (some ⟨"", "", []⟩,
        { s with users := mapInsert "" ⟨"", "", []⟩ s.users })
    ∧ mapFind "" ((newUser s "").2.users) = some ⟨"", "", []⟩
    ∧ handleNick s ⟨"", "NICK", [""], ""⟩
        = ([.attachSink], .freshUser "", (newUser s "").2) := by
  have h1 : newUser s "" = (some ⟨"", "", []⟩,
      { s with users := mapInsert "" ⟨"", "", []⟩ s.users }) := by
    simp [newUser, lowercase, h, isValidNick]
  refine ⟨by rfl, h1, ?_, ?_⟩
  · rw [h1]; exact mapFind_insert_self _ _ _
  · simp [handleNick, h1, lowercase]

/-- C10 witness: the empty nickname registers on the empty registry. -/
theorem C10_witness :
    isValidNick "" = true
    ∧ newUser emptyState "" = (some ⟨"", "", []⟩,
        { emptyState with users := mapInsert "" ⟨"", "", []⟩ [] })
    ∧ mapFind "" ((newUser emptyState "").2.users) = some ⟨"", "", []⟩
    ∧ handleNick emptyState ⟨"", "NICK", [""], ""⟩
        = ([.attachSink], .freshUser "", (newUser emptyState "").2) :=
  C10_empty_nick_registrable emptyState (by rfl)

/-- C7: in the FreshUser state, a USER message with fewer than 3 parameters
or an empty real-name resolved by `laxTrailing 3` draws
error-need-more-params and leaves both the handler and the registry
unchanged; otherwise the user-info field (the first parameter) is stored on
the user, the MOTD sequence is sent, and the handler becomes Registered. -/
theorem C7_handleUser_correct (s : stateImpl) (uk : String) (u : user) (msg : message)
    (h : mapFind uk s.users = some u) :
    (msg.params.length < 3 ∨ msg.laxTrailing 3 = "" →
      handleUser s uk msg = some ([.sendNumeric .errorNeedMoreParams], .freshUser uk, s))
    ∧ (¬(msg.params.length < 3 ∨ msg.laxTrailing 3 = "") →
      handleUser s uk msg = some ([.sendMOTD], .registered u.nick,
        { s with users := mapInsert uk { u with userInfo := msg.params.headD "" } s.users })) := by
  constructor <;> intro hcond <;> simp [handleUser, h, hcond]

/-- C7 witness: both branches on a single-user registry ("bob"): a 2-parameter
USER command is refused, and `USER bob 0 * :Bob B` completes registration. -/
theorem C7_witness :
    handleUser ⟨[], [("bob", ⟨"bob", "", []⟩)]⟩ "bob" ⟨"", "USER", ["bob", "0"], ""⟩
      = some ([.sendNumeric .errorNeedMoreParams], .freshUser "bob",
          ⟨[], [("bob", ⟨"bob", "", []⟩)]⟩)
    ∧ handleUser ⟨[], [("bob", ⟨"bob", "", []⟩)]⟩ "bob" ⟨"", "USER", ["bob", "0", "*"], "Bob B"⟩
      = some ([.sendMOTD], .registered "bob",
          ⟨[], [("bob", ⟨"bob", "bob", []⟩)]⟩) :=
  ⟨(C7_handleUser_correct ⟨[], [("bob", ⟨"bob", "", []⟩)]⟩ "bob" ⟨"bob", "", []⟩
      ⟨"", "USER", ["bob", "0"], ""⟩ (by rfl)).1 (by decide),
   (C7_handleUser_correct ⟨[], [("bob", ⟨"bob", "", []⟩)]⟩ "bob" ⟨"bob", "", []⟩
      ⟨"", "USER", ["bob", "0", "*"], "Bob B"⟩ (by rfl)).2 (by decide)⟩

/-- Well-formedness invariants of the registry, maintained by every
operation: channel records are stored under their own (lowercase) name, user
records under the lowercase nickname, membership is bidirectionally
symmetric, and membership sets only reference registered entities. -/
structure Inv (s : stateImpl) : Prop where
  chanKey : ∀ ck ch, mapFind ck s.channels = some ch → ch.name = ck
  chanKeyLower : ∀ ck ch, mapFind ck s.channels = some ch → lowercase ck = ck
  userKey : ∀ uk u, mapFind uk s.users = some u → lowercase u.nick = uk
  sym : ∀ ck ch uk u, mapFind ck s.channels = some ch → mapFind uk s.users = some u →
      (uk ∈ ch.users ↔ ck ∈ u.channels)
  memReg : ∀ ck ch uk, mapFind ck s.channels = some ch → uk ∈ ch.users →
      (mapFind uk s.users).isSome = true
  chanReg : ∀ uk u cn, mapFind uk s.users = some u → cn ∈ u.channels →
      (mapFind cn s.channels).isSome = true

theorem inv_empty : Inv emptyState := by
  constructor <;> intros <;> simp_all [emptyState, mapFind]

theorem inv_newUser (s : stateImpl) (n : String) (h : Inv s) : Inv (newUser s n).2 := by
  by_cases hfind : (mapFind (lowercase n) s.users).isSome
  · simpa [newUser, hfind] using h
  · by_cases hvalid : isValidNick (lowercase n)
    · have hnone : mapFind (lowercase n) s.users = none := by
        cases hf : mapFind (lowercase n) s.users
        · rfl
        · rw [hf] at hfind; simp at hfind
      have hres : (newUser s n).2 =
          { s with users := mapInsert (lowercase n) ⟨n, "", []⟩ s.users } := by
        simp [newUser, hfind, hvalid]
      rw [hres]
      constructor
      · exact h.chanKey
      · exact h.chanKeyLower
      · intro uk u hu
        rw [show ({ s with users := mapInsert (lowercase n) ⟨n, "", []⟩ s.users } :
              stateImpl).users = mapInsert (lowercase n) ⟨n, "", []⟩ s.users from rfl,
            mapFind_insert] at hu
        by_cases hk : uk = lowercase n
        · rw [if_pos hk] at hu
          obtain rfl := Option.some.inj hu
          rw [hk]
        · rw [if_neg hk] at hu
          exact h.userKey uk u hu
      · intro ck ch uk u hch hu
        rw [show ({ s with users := mapInsert (lowercase n) ⟨n, "", []⟩ s.users } :
              stateImpl).users = mapInsert (lowercase n) ⟨n, "", []⟩ s.users from rfl,
            mapFind_insert] at hu
        by_cases hk : uk = lowercase n
        · rw [if_pos hk] at hu
          obtain rfl := Option.some.inj hu
          have hnm : uk ∉ ch.users := by
            intro hmem
            have := h.memReg ck ch uk hch hmem
            rw [hk, hnone] at this
            simp at this
          simp [hnm]
        · rw [if_neg hk] at hu
          exact h.sym ck ch uk u hch hu
      · intro ck ch uk hch hmem
        rw [show ({ s with users := mapInsert (lowercase n) ⟨n, "", []⟩ s.users } :
              stateImpl).users = mapInsert (lowercase n) ⟨n, "", []⟩ s.users from rfl,
            mapFind_insert]
        by_cases hk : uk = lowercase n
        · simp [hk]
        · rw [if_neg hk]
          exact h.memReg ck ch uk hch hmem
      · intro uk u cn hu hcn
        rw [show ({ s with users := mapInsert (lowercase n) ⟨n, "", []⟩ s.users } :
              stateImpl).users = mapInsert (lowercase n) ⟨n, "", []⟩ s.users from rfl,
            mapFind_insert] at hu
        by_cases hk : uk = lowercase n
        · rw [if_pos hk] at hu
          obtain rfl := Option.some.inj hu
          simp at hcn
        · rw [if_neg hk] at hu
          exact h.chanReg uk u cn hu hcn
    · simpa [newUser, hfind, hvalid] using h

/-- Registry state after a `newChannel` call: the updated registry on normal
return, the state at the point of failure if the call panicked. -/
def newChannelState (s : stateImpl) (n : String) : stateImpl :=
  match newChannel s n with
  | .ok (_, s') => s'
  | .panicked => s

theorem inv_newChannelState (s : stateImpl) (n : String) (h : Inv s) :
    Inv (newChannelState s n) := by
  by_cases hfind : (mapFind (lowercase n) s.channels).isSome
  · simpa [newChannelState, newChannel, hfind] using h
  · have hnone : mapFind (lowercase n) s.channels = none := by
      cases hf : mapFind (lowercase n) s.channels
      · rfl
      · rw [hf] at hfind; simp at hfind
    cases hd : (lowercase n).data with
    | nil => simpa [newChannelState, newChannel, hfind, hd] using h
    | cons c rest =>
      by_cases hc : c ≠ '#' ∧ c ≠ '&'
      · simpa [newChannelState, newChannel, hfind, hd, hc] using h
      · have hres : newChannelState s n =
            { s with channels := mapInsert (lowercase n) ⟨lowercase n, []⟩ s.channels } := by
          simp [newChannelState, newChannel, hfind, hd, hc]
        rw [hres]
        constructor
        · intro ck ch hch
          simp only [mapFind_insert] at hch
          by_cases hk : ck = lowercase n
          · rw [if_pos hk] at hch
            obtain rfl := Option.some.inj hch
            rw [hk]
          · rw [if_neg hk] at hch
            exact h.chanKey ck ch hch
        · intro ck ch hch
          simp only [mapFind_insert] at hch
          by_cases hk : ck = lowercase n
          · rw [hk]; exact lowercase_idem n
          · rw [if_neg hk] at hch
            exact h.chanKeyLower ck ch hch
        · exact h.userKey
        · intro ck ch uk u hch hu
          simp only [mapFind_insert] at hch
          by_cases hk : ck = lowercase n
          · rw [if_pos hk] at hch
            obtain rfl := Option.some.inj hch
            have hnc : ck ∉ u.channels := by
              intro hmem
              rw [hk] at hmem
              have := h.chanReg uk u (lowercase n) hu hmem
              rw [hnone] at this
              simp at this
            simp only [hk]
            simp [hnc]
            intro hmem
            rw [hk] at hnc
            exact hnc hmem
          · rw [if_neg hk] at hch
            exact h.sym ck ch uk u hch hu
        · intro ck ch uk hch hmem
          simp only [mapFind_insert] at hch
          by_cases hk : ck = lowercase n
          · rw [if_pos hk] at hch
            obtain rfl := Option.some.inj hch
            simp at hmem
          · rw [if_neg hk] at hch
            exact h.memReg ck ch uk hch hmem
        · intro uk u cn hu hcn
          simp only [mapFind_insert]
          by_cases hk : cn = lowercase n
          · simp [hk]
          · rw [if_neg hk]
            exact h.chanReg uk u cn hu hcn

theorem inv_joinChannel (s : stateImpl) (ck uk : String) (h : Inv s) :
    Inv (joinChannel s ck uk) := by
  cases hck : mapFind ck s.channels with
  | none => simpa [joinChannel, hck] using h
  | some ch =>
  cases huk : mapFind uk s.users with
  | none => simpa [joinChannel, hck, huk] using h
  | some u =>
  by_cases hmem : uk ∈ ch.users
  · simpa [joinChannel, hck, huk, hmem] using h
  · have hname : ch.name = ck := h.chanKey ck ch hck
    have hres : joinChannel s ck uk =
        { s with
            channels := mapInsert ck { ch with users := setInsert uk ch.users } s.channels,
            users := mapInsert uk { u with channels := setInsert ch.name u.channels } s.users } := by
      simp [joinChannel, hck, huk, hmem]
    rw [hres]
    constructor
    · intro ck2 ch2 hch2
      simp only [mapFind_insert] at hch2
      by_cases hk : ck2 = ck
      · rw [if_pos hk] at hch2
        obtain rfl := Option.some.inj hch2
        rw [hk, ← hname]
      · rw [if_neg hk] at hch2
        exact h.chanKey ck2 ch2 hch2
    · intro ck2 ch2 hch2
      simp only [mapFind_insert] at hch2
      by_cases hk : ck2 = ck
      · rw [hk]; exact h.chanKeyLower ck ch hck
      · rw [if_neg hk] at hch2
        exact h.chanKeyLower ck2 ch2 hch2
    · intro uk2 u2 hu2
      simp only [mapFind_insert] at hu2
      by_cases hk : uk2 = uk
      · rw [if_pos hk] at hu2
        obtain rfl := Option.some.inj hu2
        rw [hk]
        exact h.userKey uk u huk
      · rw [if_neg hk] at hu2
        exact h.userKey uk2 u2 hu2
    · intro ck2 ch2 uk2 u2 hch2 hu2
      simp only [mapFind_insert] at hch2 hu2
      by_cases hkc : ck2 = ck <;> by_cases hku : uk2 = uk
      · rw [if_pos hkc] at hch2
        rw [if_pos hku] at hu2
        obtain rfl := Option.some.inj hch2
        obtain rfl := Option.some.inj hu2
        subst hkc; subst hku
        simp [mem_setInsert_self, hname, mem_setInsert]
      · rw [if_pos hkc] at hch2
        rw [if_neg hku] at hu2
        obtain rfl := Option.some.inj hch2
        subst hkc
        rw [show ({ ch with users := setInsert uk ch.users } : channel).users
              = setInsert uk ch.users from rfl, mem_setInsert]
        have := h.sym ck2 ch uk2 u2 hck hu2
        simp [hku, this]
      · rw [if_neg hkc] at hch2
        rw [if_pos hku] at hu2
        obtain rfl := Option.some.inj hu2
        subst hku
        rw [show ({ u with channels := setInsert ch.name u.channels } : user).channels
              = setInsert ch.name u.channels from rfl, mem_setInsert, hname]
        have := h.sym ck2 ch2 uk2 u hch2 huk
        simp [hkc, this]
      · rw [if_neg hkc] at hch2
        rw [if_neg hku] at hu2
        exact h.sym ck2 ch2 uk2 u2 hch2 hu2
    · intro ck2 ch2 uk2 hch2 hmem2
      simp only [mapFind_insert] at hch2
      simp only [mapFind_insert]
      by_cases hku : uk2 = uk
      · simp [hku]
      · rw [if_neg hku]
        by_cases hkc : ck2 = ck
        · rw [if_pos hkc] at hch2
          obtain rfl := Option.some.inj hch2
          rw [show ({ ch with users := setInsert uk ch.users } : channel).users
                = setInsert uk ch.users from rfl, mem_setInsert] at hmem2
          rcases hmem2 with h1 | h1
          · exact absurd h1 hku
          · exact h.memReg ck ch uk2 hck h1
        · rw [if_neg hkc] at hch2
          exact h.memReg ck2 ch2 uk2 hch2 hmem2
    · intro uk2 u2 cn hu2 hcn
      simp only [mapFind_insert] at hu2
      simp only [mapFind_insert]
      by_cases hkc : cn = ck
      · simp [hkc]
      · rw [if_neg hkc]
        by_cases hku : uk2 = uk
        · rw [if_pos hku] at hu2
          obtain rfl := Option.some.inj hu2
          rw [show ({ u with channels := setInsert ch.name u.channels } : user).channels
                = setInsert ch.name u.channels from rfl, mem_setInsert, hname] at hcn
          rcases hcn with h1 | h1
          · exact absurd h1 hkc
          · exact h.chanReg uk u cn huk h1
        · rw [if_neg hku] at hu2
          exact h.chanReg uk2 u2 cn hu2 hcn

theorem inv_recycleChannel (s : stateImpl) (ck : String) (h : Inv s) :
    Inv (recycleChannel s ck) := by
  cases hck : mapFind ck s.channels with
  | none => simpa [recycleChannel, hck] using h
  | some ch =>
  by_cases hlen : ch.users.length ≠ 0
  · simpa [recycleChannel, hck, hlen] using h
  · have hempty : ch.users = [] := by
      cases hu : ch.users
      · rfl
      · rw [hu] at hlen; simp at hlen
    have hname : ch.name = ck := h.chanKey ck ch hck
    have hres : recycleChannel s ck = { s with channels := mapErase ck s.channels } := by
      simp [recycleChannel, hck, hlen, hname]
    rw [hres]
    constructor
    · intro ck2 ch2 hch2
      simp only [mapFind_erase] at hch2
      by_cases hk : ck2 = ck
      · rw [if_pos hk] at hch2; exact absurd hch2 (by simp)
      · rw [if_neg hk] at hch2
        exact h.chanKey ck2 ch2 hch2
    · intro ck2 ch2 hch2
      simp only [mapFind_erase] at hch2
      by_cases hk : ck2 = ck
      · rw [if_pos hk] at hch2; exact absurd hch2 (by simp)
      · rw [if_neg hk] at hch2
        exact h.chanKeyLower ck2 ch2 hch2
    · exact h.userKey
    · intro ck2 ch2 uk2 u2 hch2 hu2
      simp only [mapFind_erase] at hch2
      by_cases hk : ck2 = ck
      · rw [if_pos hk] at hch2; exact absurd hch2 (by simp)
      · rw [if_neg hk] at hch2
        exact h.sym ck2 ch2 uk2 u2 hch2 hu2
    · intro ck2 ch2 uk2 hch2 hmem2
      simp only [mapFind_erase] at hch2
      by_cases hk : ck2 = ck
      · rw [if_pos hk] at hch2; exact absurd hch2 (by simp)
      · rw [if_neg hk] at hch2
        exact h.memReg ck2 ch2 uk2 hch2 hmem2
    · intro uk2 u2 cn hu2 hcn
      simp only [mapFind_erase]
      by_cases hk : cn = ck
      · have := (h.sym ck ch uk2 u2 hck hu2).mpr (hk ▸ hcn)
        rw [hempty] at this
        simp at this
      · rw [if_neg hk]
        exact h.chanReg uk2 u2 cn hu2 hcn

theorem inv_removeFromChannel (s : stateImpl) (ck uk : String) (h : Inv s) :
    Inv (removeFromChannel s ck uk) := by
  cases hck : mapFind ck s.channels with
  | none => simpa [removeFromChannel, hck] using h
  | some ch =>
  cases huk : mapFind uk s.users with
  | none => simpa [removeFromChannel, hck, huk] using h
  | some u =>
  have hname : ch.name = ck := h.chanKey ck ch hck
  by_cases hmem : uk ∈ ch.users
  · have hres : removeFromChannel s ck uk =
        recycleChannel
          ⟨mapInsert ck { ch with users := setErase uk ch.users } s.channels,
           mapInsert uk { u with channels := setErase ch.name u.channels } s.users⟩ ck := by
      simp [removeFromChannel, hck, huk, hmem]
    rw [hres]
    apply inv_recycleChannel
    constructor
    · intro ck2 ch2 hch2
      simp only [mapFind_insert] at hch2
      by_cases hk : ck2 = ck
      · rw [if_pos hk] at hch2
        obtain rfl := Option.some.inj hch2
        rw [hk, ← hname]
      · rw [if_neg hk] at hch2
        exact h.chanKey ck2 ch2 hch2
    · intro ck2 ch2 hch2
      simp only [mapFind_insert] at hch2
      by_cases hk : ck2 = ck
      · rw [hk]; exact h.chanKeyLower ck ch hck
      · rw [if_neg hk] at hch2
        exact h.chanKeyLower ck2 ch2 hch2
    · intro uk2 u2 hu2
      simp only [mapFind_insert] at hu2
      by_cases hk : uk2 = uk
      · rw [if_pos hk] at hu2
        obtain rfl := Option.some.inj hu2
        rw [hk]
        exact h.userKey uk u huk
      · rw [if_neg hk] at hu2
        exact h.userKey uk2 u2 hu2
    · intro ck2 ch2 uk2 u2 hch2 hu2
      simp only [mapFind_insert] at hch2 hu2
      by_cases hkc : ck2 = ck <;> by_cases hku : uk2 = uk
      · rw [if_pos hkc] at hch2
        rw [if_pos hku] at hu2
        obtain rfl := Option.some.inj hch2
        obtain rfl := Option.some.inj hu2
        subst hkc; subst hku
        rw [show ({ ch with users := setErase uk2 ch.users } : channel).users
              = setErase uk2 ch.users from rfl,
            show ({ u with channels := setErase ch.name u.channels } : user).channels
              = setErase ch.name u.channels from rfl,
            mem_setErase, mem_setErase, hname]
        simp
      · rw [if_pos hkc] at hch2
        rw [if_neg hku] at hu2
        obtain rfl := Option.some.inj hch2
        subst hkc
        rw [show ({ ch with users := setErase uk ch.users } : channel).users
              = setErase uk ch.users from rfl, mem_setErase]
        have := h.sym ck2 ch uk2 u2 hck hu2
        simp [hku, this]
      · rw [if_neg hkc] at hch2
        rw [if_pos hku] at hu2
        obtain rfl := Option.some.inj hu2
        subst hku
        rw [show ({ u with channels := setErase ch.name u.channels } : user).channels
              = setErase ch.name u.channels from rfl, mem_setErase, hname]
        have := h.sym ck2 ch2 uk2 u hch2 huk
        simp [hkc, this]
      · rw [if_neg hkc] at hch2
        rw [if_neg hku] at hu2
        exact h.sym ck2 ch2 uk2 u2 hch2 hu2
    · intro ck2 ch2 uk2 hch2 hmem2
      simp only [mapFind_insert] at hch2
      simp only [mapFind_insert]
      by_cases hku : uk2 = uk
      · simp [hku]
      · rw [if_neg hku]
        by_cases hkc : ck2 = ck
        · rw [if_pos hkc] at hch2
          obtain rfl := Option.some.inj hch2
          rw [show ({ ch with users := setErase uk ch.users } : channel).users
                = setErase uk ch.users from rfl, mem_setErase] at hmem2
          exact h.memReg ck ch uk2 hck hmem2.1
        · rw [if_neg hkc] at hch2
          exact h.memReg ck2 ch2 uk2 hch2 hmem2
    · intro uk2 u2 cn hu2 hcn
      simp only [mapFind_insert] at hu2
      simp only [mapFind_insert]
      by_cases hkc : cn = ck
      · simp [hkc]
      · rw [if_neg hkc]
        by_cases hku : uk2 = uk
        · rw [if_pos hku] at hu2
          obtain rfl := Option.some.inj hu2
          rw [show ({ u with channels := setErase ch.name u.channels } : user).channels
                = setErase ch.name u.channels from rfl, mem_setErase] at hcn
          exact h.chanReg uk u cn huk hcn.1
        · rw [if_neg hku] at hu2
          exact h.chanReg uk2 u2 cn hu2 hcn
  · have hres : removeFromChannel s ck uk =
        { s with users := mapInsert uk { u with channels := setErase ch.name u.channels } s.users } := by
      simp [removeFromChannel, hck, huk, hmem]
    rw [hres]
    constructor
    · exact h.chanKey
    · exact h.chanKeyLower
    · intro uk2 u2 hu2
      simp only [mapFind_insert] at hu2
      by_cases hk : uk2 = uk
      · rw [if_pos hk] at hu2
        obtain rfl := Option.some.inj hu2
        rw [hk]
        exact h.userKey uk u huk
      · rw [if_neg hk] at hu2
        exact h.userKey uk2 u2 hu2
    · intro ck2 ch2 uk2 u2 hch2 hu2
      simp only [mapFind_insert] at hu2
      by_cases hku : uk2 = uk
      · rw [if_pos hku] at hu2
        obtain rfl := Option.some.inj hu2
        subst hku
        rw [show ({ u with channels := setErase ch.name u.channels } : user).channels
              = setErase ch.name u.channels from rfl, mem_setErase, hname]
        by_cases hkc : ck2 = ck
        · subst hkc
          rw [hch2] at hck
          obtain rfl := Option.some.inj hck
          simp [hmem]
        · have := h.sym ck2 ch2 uk2 u hch2 huk
          simp [hkc, this]
      · rw [if_neg hku] at hu2
        exact h.sym ck2 ch2 uk2 u2 hch2 hu2
    · intro ck2 ch2 uk2 hch2 hmem2
      simp only [mapFind_insert]
      by_cases hku : uk2 = uk
      · simp [hku]
      · rw [if_neg hku]
        exact h.memReg ck2 ch2 uk2 hch2 hmem2
    · intro uk2 u2 cn hu2 hcn
      simp only [mapFind_insert] at hu2
      by_cases hku : uk2 = uk
      · rw [if_pos hku] at hu2
        obtain rfl := Option.some.inj hu2
        rw [show ({ u with channels := setErase ch.name u.channels } : user).channels
              = setErase ch.name u.channels from rfl, mem_setErase] at hcn
        exact h.chanReg uk u cn huk hcn.1
      · rw [if_neg hku] at hu2
        exact h.chanReg uk2 u2 cn hu2 hcn

theorem inv_partChannel (s : stateImpl) (ck uk r : String) (h : Inv s) :
    Inv (partChannel s ck uk r) :=
  inv_removeFromChannel s ck uk h

theorem recycle_users (s : stateImpl) (ck : String) :
    (recycleChannel s ck).users = s.users := by
  cases hck : mapFind ck s.channels with
  | none => simp [recycleChannel, hck]
  | some ch =>
    by_cases hlen : ch.users.length ≠ 0
    · simp [recycleChannel, hck, hlen]
    · simp [recycleChannel, hck, hlen]

theorem removeFrom_users_isSome (s : stateImpl) (ck uk uk0 : String)
    (h : (mapFind uk0 s.users).isSome = true) :
    (mapFind uk0 (removeFromChannel s ck uk).users).isSome = true := by
  cases hck : mapFind ck s.channels with
  | none => simpa [removeFromChannel, hck] using h
  | some ch =>
  cases huk : mapFind uk s.users with
  | none => simpa [removeFromChannel, hck, huk] using h
  | some u =>
  by_cases hmem : uk ∈ ch.users
  · have hres : removeFromChannel s ck uk =
        recycleChannel
          ⟨mapInsert ck { ch with users := setErase uk ch.users } s.channels,
           mapInsert uk { u with channels := setErase ch.name u.channels } s.users⟩ ck := by
      simp [removeFromChannel, hck, huk, hmem]
    rw [hres, recycle_users]
    show (mapFind uk0 (mapInsert uk _ s.users)).isSome = true
    rw [mapFind_insert]
    by_cases hk : uk0 = uk
    · simp [hk]
    · rw [if_neg hk]; exact h
  · have hres : removeFromChannel s ck uk =
        { s with users := mapInsert uk { u with channels := setErase ch.name u.channels } s.users } := by
      simp [removeFromChannel, hck, huk, hmem]
    rw [hres]
    show (mapFind uk0 (mapInsert uk _ s.users)).isSome = true
    rw [mapFind_insert]
    by_cases hk : uk0 = uk
    · simp [hk]
    · rw [if_neg hk]; exact h

theorem removeFrom_eq_noChan (s : stateImpl) (ck uk : String)
    (hck : mapFind ck s.channels = none) : removeFromChannel s ck uk = s := by
  simp [removeFromChannel, hck]

theorem removeFrom_eq_noUser (s : stateImpl) (ck uk : String) (ch : channel)
    (hck : mapFind ck s.channels = some ch) (huk : mapFind uk s.users = none) :
    removeFromChannel s ck uk = s := by
  simp [removeFromChannel, hck, huk]

theorem removeFrom_eq_mem (s : stateImpl) (ck uk : String) (ch : channel) (u : user)
    (hck : mapFind ck s.channels = some ch) (huk : mapFind uk s.users = some u)
    (hmem : uk ∈ ch.users) :
    removeFromChannel s ck uk =
      recycleChannel
        ⟨mapInsert ck { ch with users := setErase uk ch.users } s.channels,
         mapInsert uk { u with channels := setErase ch.name u.channels } s.users⟩ ck := by
  simp [removeFromChannel, hck, huk, hmem]

theorem removeFrom_eq_nomem (s : stateImpl) (ck uk : String) (ch : channel) (u : user)
    (hck : mapFind ck s.channels = some ch) (huk : mapFind uk s.users = some u)
    (hmem : uk ∉ ch.users) :
    removeFromChannel s ck uk =
      { s with users := mapInsert uk { u with channels := setErase ch.name u.channels } s.users } := by
  simp [removeFromChannel, hck, huk, hmem]

theorem recycle_eq_keep (s : stateImpl) (ck : String) (ch : channel)
    (hck : mapFind ck s.channels = some ch) (hlen : ch.users ≠ []) :
    recycleChannel s ck = s := by
  have : ch.users.length ≠ 0 := by
    intro h0
    exact hlen (List.length_eq_zero.mp h0)
  simp [recycleChannel, hck, this]

theorem recycle_eq_erase (s : stateImpl) (ck : String) (ch : channel)
    (hck : mapFind ck s.channels = some ch) (he : ch.users = []) :
    recycleChannel s ck = { s with channels := mapErase ch.name s.channels } := by
  simp [recycleChannel, hck, he]

theorem removeFrom_channels_other (s : stateImpl) (ck uk ck2 : String) (h : Inv s)
    (hne : ck2 ≠ ck) :
    mapFind ck2 (removeFromChannel s ck uk).channels = mapFind ck2 s.channels := by
  cases hck : mapFind ck s.channels with
  | none => rw [removeFrom_eq_noChan s ck uk hck]
  | some ch =>
  cases huk : mapFind uk s.users with
  | none => rw [removeFrom_eq_noUser s ck uk ch hck huk]
  | some u =>
  have hname : ch.name = ck := h.chanKey ck ch hck
  by_cases hmem : uk ∈ ch.users
  · rw [removeFrom_eq_mem s ck uk ch u hck huk hmem]
    have hfind2 : mapFind ck
        (⟨mapInsert ck { ch with users := setErase uk ch.users } s.channels,
          mapInsert uk { u with channels := setErase ch.name u.channels } s.users⟩ :
          stateImpl).channels
        = some { ch with users := setErase uk ch.users } := mapFind_insert_self _ _ _
    by_cases hemp : setErase uk ch.users = []
    · rw [recycle_eq_erase _ ck { ch with users := setErase uk ch.users } hfind2 hemp]
      show mapFind ck2 (mapErase ({ ch with users := setErase uk ch.users } : channel).name
            (mapInsert ck { ch with users := setErase uk ch.users } s.channels))
          = mapFind ck2 s.channels
      show mapFind ck2 (mapErase ch.name
            (mapInsert ck { ch with users := setErase uk ch.users } s.channels))
          = mapFind ck2 s.channels
      rw [hname, mapFind_erase_ne ck ck2 _ hne, mapFind_insert_ne ck ck2 _ _ hne]
    · rw [recycle_eq_keep _ ck { ch with users := setErase uk ch.users } hfind2 hemp]
      exact mapFind_insert_ne ck ck2 _ _ hne
  · rw [removeFrom_eq_nomem s ck uk ch u hck huk hmem]

theorem removeFrom_self_cleared (s : stateImpl) (ck uk : String) (h : Inv s)
    (hus : (mapFind uk s.users).isSome = true) (ch' : channel)
    (hch' : mapFind ck (removeFromChannel s ck uk).channels = some ch') :
    uk ∉ ch'.users := by
  cases hck : mapFind ck s.channels with
  | none =>
    rw [removeFrom_eq_noChan s ck uk hck, hck] at hch'
    exact absurd hch' (by simp)
  | some ch =>
  cases huk : mapFind uk s.users with
  | none => rw [huk] at hus; simp at hus
  | some u =>
  have hname : ch.name = ck := h.chanKey ck ch hck
  by_cases hmem : uk ∈ ch.users
  · rw [removeFrom_eq_mem s ck uk ch u hck huk hmem] at hch'
    have hfind2 : mapFind ck
        (⟨mapInsert ck { ch with users := setErase uk ch.users } s.channels,
          mapInsert uk { u with channels := setErase ch.name u.channels } s.users⟩ :
          stateImpl).channels
        = some { ch with users := setErase uk ch.users } := mapFind_insert_self _ _ _
    by_cases hemp : setErase uk ch.users = []
    · rw [recycle_eq_erase _ ck { ch with users := setErase uk ch.users } hfind2 hemp] at hch'
      have hch2 : mapFind ck (mapErase ch.name
          (mapInsert ck { ch with users := setErase uk ch.users } s.channels)) = some ch' := hch'
      rw [hname, mapFind_erase_self] at hch2
      exact absurd hch2 (by simp)
    · rw [recycle_eq_keep _ ck { ch with users := setErase uk ch.users } hfind2 hemp] at hch'
      have hch2 : mapFind ck
          (mapInsert ck { ch with users := setErase uk ch.users } s.channels) = some ch' := hch'
      rw [mapFind_insert_self] at hch2
      obtain rfl := Option.some.inj hch2
      rw [show ({ ch with users := setErase uk ch.users } : channel).users
            = setErase uk ch.users from rfl, mem_setErase]
      simp
  · rw [removeFrom_eq_nomem s ck uk ch u hck huk hmem] at hch'
    have hch2 : mapFind ck s.channels = some ch' := hch'
    rw [hck] at hch2
    obtain rfl := Option.some.inj hch2
    exact hmem

theorem fold_part_clears (uk : String) (lst : List String) :
    ∀ (s : stateImpl), Inv s → (mapFind uk s.users).isSome = true →
    (∀ ck ch, mapFind ck s.channels = some ch → uk ∈ ch.users → ck ∈ lst) →
    Inv (lst.foldl (fun st cn => partChannel st cn uk "QUITing") s)
    ∧ (mapFind uk (lst.foldl (fun st cn => partChannel st cn uk "QUITing") s).users).isSome = true
    ∧ ∀ ck ch,
        mapFind ck (lst.foldl (fun st cn => partChannel st cn uk "QUITing") s).channels = some ch →
        uk ∉ ch.users := by
  induction lst with
  | nil =>
    intro s hInv hSome hIn
    refine ⟨hInv, hSome, ?_⟩
    intro ck ch hch hmem
    exact absurd (hIn ck ch hch hmem) (List.not_mem_nil ck)
  | cons cn rest ih =>
    intro s hInv hSome hIn
    simp only [List.foldl_cons]
    apply ih
    · exact inv_partChannel s cn uk "QUITing" hInv
    · exact removeFrom_users_isSome s cn uk uk hSome
    · intro ck ch hch hmem
      by_cases hk : ck = cn
      · subst hk
        exact absurd hmem (removeFrom_self_cleared s ck uk hInv hSome ch hch)
      · have hch2 : mapFind ck (removeFromChannel s cn uk).channels = some ch := hch
        rw [removeFrom_channels_other s cn uk ck hInv hk] at hch2
        have := hIn ck ch hch2 hmem
        rcases List.mem_cons.mp this with h1 | h1
        · exact absurd h1 hk
        · exact h1

theorem inv_removeUser (s : stateImpl) (uk : String) (h : Inv s) : Inv (removeUser s uk) := by
  cases huk : mapFind uk s.users with
  | none => simpa [removeUser, huk] using h
  | some u =>
  have hnick : lowercase u.nick = uk := h.userKey uk u huk
  have hres : removeUser s uk =
      { u.channels.foldl (fun st cn => partChannel st cn uk "QUITing") s with
          users := mapErase uk
            (u.channels.foldl (fun st cn => partChannel st cn uk "QUITing") s).users } := by
    simp [removeUser, huk, hnick]
  obtain ⟨hInv3, hSome3, hClear3⟩ :=
    fold_part_clears uk u.channels s h (by simp [huk])
      (fun ck ch hch hmem => (h.sym ck ch uk u hch huk).mp hmem)
  rw [hres]
  constructor
  · exact hInv3.chanKey
  · exact hInv3.chanKeyLower
  · intro uk2 u2 hu2
    simp only [mapFind_erase] at hu2
    by_cases hk : uk2 = uk
    · rw [if_pos hk] at hu2; exact absurd hu2 (by simp)
    · rw [if_neg hk] at hu2
      exact hInv3.userKey uk2 u2 hu2
  · intro ck2 ch2 uk2 u2 hch2 hu2
    simp only [mapFind_erase] at hu2
    by_cases hk : uk2 = uk
    · rw [if_pos hk] at hu2; exact absurd hu2 (by simp)
    · rw [if_neg hk] at hu2
      exact hInv3.sym ck2 ch2 uk2 u2 hch2 hu2
  · intro ck2 ch2 uk2 hch2 hmem2
    simp only [mapFind_erase]
    by_cases hk : uk2 = uk
    · subst hk
      exact absurd hmem2 (hClear3 ck2 ch2 hch2)
    · rw [if_neg hk]
      exact hInv3.memReg ck2 ch2 uk2 hch2 hmem2
  · intro uk2 u2 cn hu2 hcn
    simp only [mapFind_erase] at hu2
    by_cases hk : uk2 = uk
    · rw [if_pos hk] at hu2; exact absurd hu2 (by simp)
    · rw [if_neg hk] at hu2
      exact hInv3.chanReg uk2 u2 cn hu2 hcn

/-- A registry operation, as exposed by the `state` interface.  Channel and
user pointer arguments are embedded as registry keys. -/
inductive regOp where
  | newUserOp (nick : String)
  | newChannelOp (name : String)
  | joinOp (ck uk : String)
  | partOp (ck uk reason : String)
  | removeFromOp (ck uk : String)
  | removeUserOp (uk : String)
  | recycleOp (ck : String)
deriving DecidableEq, Repr

/-- The registry state after performing one operation. -/
def applyOp (s : stateImpl) : regOp → stateImpl
  | .newUserOp n => (newUser s n).2
  | .newChannelOp n => newChannelState s n
  | .joinOp ck uk => joinChannel s ck uk
  | .partOp ck uk r => partChannel s ck uk r
  | .removeFromOp ck uk => removeFromChannel s ck uk
  | .removeUserOp uk => removeUser s uk
  | .recycleOp ck => recycleChannel s ck

/-- Registry states reachable from the fresh registry through the mutation
operations. -/
inductive Reachable : stateImpl → Prop where
  | init : Reachable emptyState
  | step {s : stateImpl} (h : Reachable s) (op : regOp) : Reachable (applyOp s op)

theorem inv_applyOp (s : stateImpl) (op : regOp) (h : Inv s) : Inv (applyOp s op) := by
  cases op with
  | newUserOp n => exact inv_newUser s n h
  | newChannelOp n => exact inv_newChannelState s n h
  | joinOp ck uk => exact inv_joinChannel s ck uk h
  | partOp ck uk r => exact inv_partChannel s ck uk r h
  | removeFromOp ck uk => exact inv_removeFromChannel s ck uk h
  | removeUserOp uk => exact inv_removeUser s uk h
  | recycleOp ck => exact inv_recycleChannel s ck h

theorem reachable_inv (s : stateImpl) (h : Reachable s) : Inv s := by
  induction h with
  | init => exact inv_empty
  | step _ op ih => exact inv_applyOp _ op ih

/-- C5: bidirectional membership symmetry holds in every registry state
reachable through the registry operations (newUser, newChannel, joinChannel,
partChannel, removeFromChannel, removeUser, recycleChannel): a user is in a
channel's member set exactly when the channel is in the user's membership
set. -/
theorem C5_membership_symmetric (s : stateImpl) (h : Reachable s) :
    ∀ ck ch uk u, mapFind ck s.channels = some ch → mapFind uk s.users = some u →
      (uk ∈ ch.users ↔ ck ∈ u.channels) :=
  (reachable_inv s h).sym

/-- A small reachable demonstration state: "bob" registered and joined to
channel "#a". -/
def demoState : stateImpl :=
  applyOp (applyOp (applyOp emptyState (.newUserOp "bob")) (.newChannelOp "#a"))
    (.joinOp "#a" "bob")

theorem demoState_reachable : Reachable demoState :=
  .step (.step (.step .init (.newUserOp "bob")) (.newChannelOp "#a")) (.joinOp "#a" "bob")

/-- C5 witness: the symmetry instance for "bob" and "#a" in the concrete
demonstration state. -/
theorem C5_witness :
    ("bob" ∈ (⟨"#a", ["bob"]⟩ : channel).users ↔ "#a" ∈ (⟨"bob", "", ["#a"]⟩ : user).channels) :=
  C5_membership_symmetric demoState demoState_reachable "#a" ⟨"#a", ["bob"]⟩ "bob"
    ⟨"bob", "", ["#a"]⟩ (by rfl) (by rfl)

theorem setInsert_ne_nil (k : String) (l : List String) : setInsert k l ≠ [] := by
  by_cases h : k ∈ l
  · simp only [setInsert, if_pos h]
    intro he
    rw [he] at h
    exact List.not_mem_nil k h
  · simp [setInsert, h]

theorem newUser_channels (s : stateImpl) (n : String) :
    (newUser s n).2.channels = s.channels := by
  by_cases hfind : (mapFind (lowercase n) s.users).isSome
  · simp [newUser, hfind]
  · by_cases hvalid : isValidNick (lowercase n)
    · simp [newUser, hfind, hvalid]
    · simp [newUser, hfind, hvalid]

theorem newChannelState_find (s : stateImpl) (n ck : String) (ch : channel)
    (hck : mapFind ck s.channels = some ch) :
    mapFind ck (newChannelState s n).channels = some ch := by
  by_cases hfind : (mapFind (lowercase n) s.channels).isSome
  · simpa [newChannelState, newChannel, hfind] using hck
  · have hnone : mapFind (lowercase n) s.channels = none := by
      cases hf : mapFind (lowercase n) s.channels
      · rfl
      · rw [hf] at hfind; simp at hfind
    cases hd : (lowercase n).data with
    | nil => simpa [newChannelState, newChannel, hfind, hd] using hck
    | cons c rest =>
      by_cases hc : c ≠ '#' ∧ c ≠ '&'
      · simpa [newChannelState, newChannel, hfind, hd, hc] using hck
      · have hres : newChannelState s n =
            { s with channels := mapInsert (lowercase n) ⟨lowercase n, []⟩ s.channels } := by
          simp [newChannelState, newChannel, hfind, hd, hc]
        rw [hres]
        have hne : ck ≠ lowercase n := by
          intro he
          rw [he, hnone] at hck
          exact Option.noConfusion hck
        show mapFind ck (mapInsert (lowercase n) _ s.channels) = some ch
        rw [mapFind_insert_ne _ _ _ _ hne]
        exact hck

theorem join_eq_noChan (s : stateImpl) (ck uk : String)
    (hck : mapFind ck s.channels = none) : joinChannel s ck uk = s := by
  simp [joinChannel, hck]

theorem join_eq_noUser (s : stateImpl) (ck uk : String) (ch : channel)
    (hck : mapFind ck s.channels = some ch) (huk : mapFind uk s.users = none) :
    joinChannel s ck uk = s := by
  simp [joinChannel, hck, huk]

theorem join_eq_mem (s : stateImpl) (ck uk : String) (ch : channel) (u : user)
    (hck : mapFind ck s.channels = some ch) (huk : mapFind uk s.users = some u)
    (hmem : uk ∈ ch.users) : joinChannel s ck uk = s := by
  simp [joinChannel, hck, huk, hmem]

theorem join_eq_new (s : stateImpl) (ck uk : String) (ch : channel) (u : user)
    (hck : mapFind ck s.channels = some ch) (huk : mapFind uk s.users = some u)
    (hmem : uk ∉ ch.users) :
    joinChannel s ck uk =
      { s with
          channels := mapInsert ck { ch with users := setInsert uk ch.users } s.channels,
          users := mapInsert uk { u with channels := setInsert ch.name u.channels } s.users } := by
  simp [joinChannel, hck, huk, hmem]

theorem nonempty_join (s : stateImpl) (ck0 uk ck : String) (ch ch' : channel)
    (hck : mapFind ck s.channels = some ch) (hne : ch.users ≠ [])
    (hafter : mapFind ck (joinChannel s ck0 uk).channels = some ch') : ch'.users ≠ [] := by
  cases hck0 : mapFind ck0 s.channels with
  | none =>
    rw [join_eq_noChan s ck0 uk hck0, hck] at hafter
    obtain rfl := Option.some.inj hafter
    exact hne
  | some ch0 =>
  cases huk : mapFind uk s.users with
  | none =>
    rw [join_eq_noUser s ck0 uk ch0 hck0 huk, hck] at hafter
    obtain rfl := Option.some.inj hafter
    exact hne
  | some u =>
  by_cases hmem : uk ∈ ch0.users
  · rw [join_eq_mem s ck0 uk ch0 u hck0 huk hmem, hck] at hafter
    obtain rfl := Option.some.inj hafter
    exact hne
  · rw [join_eq_new s ck0 uk ch0 u hck0 huk hmem] at hafter
    have hafter2 : mapFind ck
        (mapInsert ck0 { ch0 with users := setInsert uk ch0.users } s.channels) = some ch' :=
      hafter
    rw [mapFind_insert] at hafter2
    by_cases hk : ck = ck0
    · rw [if_pos hk] at hafter2
      obtain rfl := Option.some.inj hafter2
      exact setInsert_ne_nil uk ch0.users
    · rw [if_neg hk, hck] at hafter2
      obtain rfl := Option.some.inj hafter2
      exact hne

theorem nonempty_removeFrom (s : stateImpl) (ck0 uk ck : String) (ch ch' : channel) (h : Inv s)
    (hck : mapFind ck s.channels = some ch) (hne : ch.users ≠ [])
    (hafter : mapFind ck (removeFromChannel s ck0 uk).channels = some ch') : ch'.users ≠ [] := by
  by_cases hk : ck = ck0
  · subst hk
    cases hck0 : mapFind ck s.channels with
    | none => rw [hck0] at hck; exact Option.noConfusion hck
    | some ch0 =>
    rw [hck0] at hck
    obtain rfl := (Option.some.inj hck).symm
    cases huk : mapFind uk s.users with
    | none =>
      rw [removeFrom_eq_noUser s ck uk ch hck0 huk, hck0] at hafter
      obtain rfl := Option.some.inj hafter
      exact hne
    | some u =>
    by_cases hmem : uk ∈ ch.users
    · rw [removeFrom_eq_mem s ck uk ch u hck0 huk hmem] at hafter
      have hfind2 : mapFind ck
          (⟨mapInsert ck { ch with users := setErase uk ch.users } s.channels,
            mapInsert uk { u with channels := setErase ch.name u.channels } s.users⟩ :
            stateImpl).channels
          = some { ch with users := setErase uk ch.users } := mapFind_insert_self _ _ _
      by_cases hemp : setErase uk ch.users = []
      · rw [recycle_eq_erase _ ck { ch with users := setErase uk ch.users } hfind2 hemp]
          at hafter
        have hafter2 : mapFind ck (mapErase ch.name
            (mapInsert ck { ch with users := setErase uk ch.users } s.channels))
            = some ch' := hafter
        rw [h.chanKey ck ch hck0, mapFind_erase_self] at hafter2
        exact Option.noConfusion hafter2
      · rw [recycle_eq_keep _ ck { ch with users := setErase uk ch.users } hfind2 hemp]
          at hafter
        have hafter2 : mapFind ck
            (mapInsert ck { ch with users := setErase uk ch.users } s.channels)
            = some ch' := hafter
        rw [mapFind_insert_self] at hafter2
        obtain rfl := Option.some.inj hafter2
        exact hemp
    · rw [removeFrom_eq_nomem s ck uk ch u hck0 huk hmem] at hafter
      have hafter2 : mapFind ck s.channels = some ch' := hafter
      rw [hck0] at hafter2
      obtain rfl := Option.some.inj hafter2
      exact hne
  · rw [removeFrom_channels_other s ck0 uk ck h hk, hck] at hafter
    obtain rfl := Option.some.inj hafter
    exact hne

theorem nonempty_recycle (s : stateImpl) (ck0 ck : String) (ch ch' : channel) (h : Inv s)
    (hck : mapFind ck s.channels = some ch) (hne : ch.users ≠ [])
    (hafter : mapFind ck (recycleChannel s ck0).channels = some ch') : ch'.users ≠ [] := by
  cases hck0 : mapFind ck0 s.channels with
  | none =>
    rw [show recycleChannel s ck0 = s by simp [recycleChannel, hck0], hck] at hafter
    obtain rfl := Option.some.inj hafter
    exact hne
  | some ch0 =>
  by_cases hemp : ch0.users = []
  · rw [recycle_eq_erase s ck0 ch0 hck0 hemp] at hafter
    have hafter2 : mapFind ck (mapErase ch0.name s.channels) = some ch' := hafter
    rw [h.chanKey ck0 ch0 hck0, mapFind_erase] at hafter2
    by_cases hk : ck = ck0
    · rw [if_pos hk] at hafter2
      exact Option.noConfusion hafter2
    · rw [if_neg hk, hck] at hafter2
      obtain rfl := Option.some.inj hafter2
      exact hne
  · rw [recycle_eq_keep s ck0 ch0 hck0 hemp, hck] at hafter
    obtain rfl := Option.some.inj hafter
    exact hne

theorem removeFrom_isSome_rev (s : stateImpl) (ck0 uk ck : String) (c : channel)
    (hafter : mapFind ck (removeFromChannel s ck0 uk).channels = some c) :
    (mapFind ck s.channels).isSome = true := by
  cases hck0 : mapFind ck0 s.channels with
  | none =>
    rw [removeFrom_eq_noChan s ck0 uk hck0] at hafter
    simp [hafter]
  | some ch0 =>
  cases huk : mapFind uk s.users with
  | none =>
    rw [removeFrom_eq_noUser s ck0 uk ch0 hck0 huk] at hafter
    simp [hafter]
  | some u =>
  by_cases hmem : uk ∈ ch0.users
  · rw [removeFrom_eq_mem s ck0 uk ch0 u hck0 huk hmem] at hafter
    have hfind2 : mapFind ck0
        (⟨mapInsert ck0 { ch0 with users := setErase uk ch0.users } s.channels,
          mapInsert uk { u with channels := setErase ch0.name u.channels } s.users⟩ :
          stateImpl).channels
        = some { ch0 with users := setErase uk ch0.users } := mapFind_insert_self _ _ _
    by_cases hemp : setErase uk ch0.users = []
    · rw [recycle_eq_erase _ ck0 { ch0 with users := setErase uk ch0.users } hfind2 hemp]
        at hafter
      have hafter2 : mapFind ck (mapErase ch0.name
          (mapInsert ck0 { ch0 with users := setErase uk ch0.users } s.channels))
          = some c := hafter
      rw [mapFind_erase] at hafter2
      by_cases hk1 : ck = ch0.name
      · rw [if_pos hk1] at hafter2
        exact Option.noConfusion hafter2
      · rw [if_neg hk1, mapFind_insert] at hafter2
        by_cases hk2 : ck = ck0
        · rw [hk2, hck0]; rfl
        · rw [if_neg hk2] at hafter2
          simp [hafter2]
    · rw [recycle_eq_keep _ ck0 { ch0 with users := setErase uk ch0.users } hfind2 hemp]
        at hafter
      have hafter2 : mapFind ck
          (mapInsert ck0 { ch0 with users := setErase uk ch0.users } s.channels)
          = some c := hafter
      rw [mapFind_insert] at hafter2
      by_cases hk2 : ck = ck0
      · rw [hk2, hck0]; rfl
      · rw [if_neg hk2] at hafter2
        simp [hafter2]
  · rw [removeFrom_eq_nomem s ck0 uk ch0 u hck0 huk hmem] at hafter
    have hafter2 : mapFind ck s.channels = some c := hafter
    simp [hafter2]

theorem fold_part_isSome_rev (uk : String) (lst : List String) :
    ∀ (s : stateImpl) (ck : String) (c : channel),
      mapFind ck ((lst.foldl (fun st cn => partChannel st cn uk "QUITing") s)).channels = some c →
      (mapFind ck s.channels).isSome = true := by
  induction lst with
  | nil =>
    intro s ck c hafter
    simp only [List.foldl_nil] at hafter
    simp [hafter]
  | cons cn rest ih =>
    intro s ck c hafter
    simp only [List.foldl_cons] at hafter
    have hstep := ih (partChannel s cn uk "QUITing") ck c hafter
    obtain ⟨cm, hcm⟩ := Option.isSome_iff_exists.mp hstep
    exact removeFrom_isSome_rev s cn uk ck cm hcm

theorem fold_part_nonempty (uk : String) (lst : List String) :
    ∀ (s : stateImpl), Inv s → ∀ (ck : String) (ch ch' : channel),
      mapFind ck s.channels = some ch → ch.users ≠ [] →
      mapFind ck ((lst.foldl (fun st cn => partChannel st cn uk "QUITing") s)).channels
        = some ch' →
      ch'.users ≠ [] := by
  induction lst with
  | nil =>
    intro s _ ck ch ch' hck hne hafter
    simp only [List.foldl_nil] at hafter
    rw [hck] at hafter
    obtain rfl := Option.some.inj hafter
    exact hne
  | cons cn rest ih =>
    intro s hInv ck ch ch' hck hne hafter
    simp only [List.foldl_cons] at hafter
    obtain ⟨cm, hcm⟩ := Option.isSome_iff_exists.mp
      (fold_part_isSome_rev uk rest (partChannel s cn uk "QUITing") ck ch' hafter)
    have hcmne : cm.users ≠ [] := nonempty_removeFrom s cn uk ck ch cm hInv hck hne hcm
    exact ih (partChannel s cn uk "QUITing") (inv_partChannel s cn uk "QUITing" hInv)
      ck cm ch' hcm hcmne hafter

/-- C4: in every reachable registry state, parting the single last member of a
channel removes the channel in the same operation (`getChannel` on its name
then yields no result), and no registry operation can take a channel from a
non-empty member set to an empty one while leaving it in the directory. -/
theorem C4_empty_channel_recycled (s : stateImpl) (h : Reachable s) :
    (∀ ck ch uk reason, mapFind ck s.channels = some ch → ch.users = [uk] →
      getChannel (partChannel s ck uk reason) ch.name = none)
    ∧ (∀ op ck ch ch', mapFind ck s.channels = some ch → ch.users ≠ [] →
        mapFind ck (applyOp s op).channels = some ch' → ch'.users ≠ []) := by
  have hInv := reachable_inv s h
  constructor
  · intro ck ch uk reason hck hone
    have hmem : uk ∈ ch.users := by rw [hone]; simp
    have husome : (mapFind uk s.users).isSome = true := hInv.memReg ck ch uk hck hmem
    obtain ⟨u, huk⟩ := Option.isSome_iff_exists.mp husome
    have hemp : setErase uk ch.users = [] := by rw [hone]; simp [setErase]
    show getChannel (removeFromChannel s ck uk) ch.name = none
    rw [removeFrom_eq_mem s ck uk ch u hck huk hmem]
    have hfind2 : mapFind ck
        (⟨mapInsert ck { ch with users := setErase uk ch.users } s.channels,
          mapInsert uk { u with channels := setErase ch.name u.channels } s.users⟩ :
          stateImpl).channels
        = some { ch with users := setErase uk ch.users } := mapFind_insert_self _ _ _
    rw [recycle_eq_erase _ ck { ch with users := setErase uk ch.users } hfind2 hemp]
    show mapFind (lowercase ch.name) (mapErase ch.name
        (mapInsert ck { ch with users := setErase uk ch.users } s.channels)) = none
    rw [hInv.chanKey ck ch hck, hInv.chanKeyLower ck ch hck]
    exact mapFind_erase_self _ _
  · intro op ck ch ch' hck hne hafter
    cases op with
    | newUserOp n =>
      have heq : mapFind ck (newUser s n).2.channels = mapFind ck s.channels := by
        rw [newUser_channels]
      have hafter2 : mapFind ck (newUser s n).2.channels = some ch' := hafter
      rw [heq, hck] at hafter2
      obtain rfl := Option.some.inj hafter2
      exact hne
    | newChannelOp n =>
      have hpres := newChannelState_find s n ck ch hck
      have hafter2 : mapFind ck (newChannelState s n).channels = some ch' := hafter
      rw [hpres] at hafter2
      obtain rfl := Option.some.inj hafter2
      exact hne
    | joinOp ck0 uk => exact nonempty_join s ck0 uk ck ch ch' hck hne hafter
    | partOp ck0 uk r => exact nonempty_removeFrom s ck0 uk ck ch ch' hInv hck hne hafter
    | removeFromOp ck0 uk => exact nonempty_removeFrom s ck0 uk ck ch ch' hInv hck hne hafter
    | removeUserOp uk =>
      cases huk : mapFind uk s.users with
      | none =>
        have hafter2 : mapFind ck s.channels = some ch' := by
          have hx : mapFind ck (removeUser s uk).channels = some ch' := hafter
          rw [show removeUser s uk = s by simp [removeUser, huk]] at hx
          exact hx
        rw [hck] at hafter2
        obtain rfl := Option.some.inj hafter2
        exact hne
      | some u =>
        have hres : removeUser s uk =
            { u.channels.foldl (fun st cn => partChannel st cn uk "QUITing") s with
                users := mapErase uk
                  (u.channels.foldl (fun st cn => partChannel st cn uk "QUITing") s).users } := by
          simp [removeUser, huk, hInv.userKey uk u huk]
        have hafter2 : mapFind ck
            ((u.channels.foldl (fun st cn => partChannel st cn uk "QUITing") s)).channels
            = some ch' := by
          have hx : mapFind ck (removeUser s uk).channels = some ch' := hafter
          rw [hres] at hx
          exact hx
        exact fold_part_nonempty uk u.channels s hInv ck ch ch' hck hne hafter2
    | recycleOp ck0 => exact nonempty_recycle s ck0 ck ch ch' hInv hck hne hafter

/-- C4 witness: parting "bob", the only member of "#a", in the demonstration
state deletes the channel. -/
theorem C4_witness : getChannel (partChannel demoState "#a" "bob" "bye") "#a" = none :=
  (C4_empty_channel_recycled demoState demoState_reachable).1 "#a" ⟨"#a", ["bob"]⟩ "bob" "bye"
    (by rfl) (by rfl)
